import Mathlib

/-!
Verification development for the Network Traffic Analyzer repository.

The repository ships a Next.js dashboard (under `components/`, `app/`,
`lib/`) that consumes a packet-analysis backend over HTTP.  The backend
engine itself (capture reader, layer decoder, identity resolver,
aggregator, packet store) is described by the design specification; its
code is not part of the checked-in sources here, so those components are
modelled from the specification, while the dashboard's pager logic is
embedded directly from `components` source (`PacketTable` / `getKey`).
-/

namespace NTA

/-! ## Data model -/

/-- Modelled from the spec: a raw captured frame (§3 RawFrame) of the missing
backend — timestamp in seconds plus fractional microseconds, original length
and the captured payload bytes.  The captured length is the payload length. -/
structure RawFrame where
  tsSec : Nat
  tsUsec : Nat
  origLen : Nat
  payload : List Nat
  deriving Repr, DecidableEq

/-- Modelled from the spec: decoded link layer of a PacketRecord (§3) —
label plus optional source/destination hardware addresses. -/
structure LinkInfo where
  label : String
  src : Option String
  dst : Option String
  deriving Repr, DecidableEq

/-- Modelled from the spec: decoded network layer of a PacketRecord (§3) —
version, addresses, protocol number, TTL and fragmentation flag, every
field optional so an undecodable sub-structure can stay absent. -/
structure NetInfo where
  label : String
  version : Option Nat
  src : Option String
  dst : Option String
  proto : Option Nat
  ttl : Option Nat
  frag : Bool
  deriving Repr, DecidableEq

/-- Modelled from the spec: decoded transport layer of a PacketRecord (§3) —
label, optional ports and optional control flags. -/
structure TransInfo where
  label : String
  srcPort : Option Nat
  dstPort : Option Nat
  flags : Option Nat
  deriving Repr, DecidableEq

/-- Modelled from the spec: a decoded packet record (§3 PacketRecord) of the
missing backend — sequence number assigned in arrival order, timestamp,
total size and the layer tree with an application summary string. -/
structure PacketRecord where
  seq : Nat
  ts : Rat
  size : Nat
  link : LinkInfo
  network : NetInfo
  transport : TransInfo
  app : String
  deriving Repr, DecidableEq

/-- A placeholder record used as the default for head/last lookups. -/
def dummyRecord : PacketRecord :=
  { seq := 0, ts := 0, size := 0,
    link := { label := "unknown", src := none, dst := none },
    network := { label := "other", version := none, src := none, dst := none,
                 proto := none, ttl := none, frag := false },
    transport := { label := "other", srcPort := none, dstPort := none, flags := none },
    app := "" }

/-! ## Packet Store (modelled from the spec, §4.5) -/

/-- Result shape of a paginated packet query. -/
structure QueryResult where
  items : List PacketRecord
  total : Nat
  deriving Repr, DecidableEq

/-- Modelled from the spec: the missing backend Packet Store query (§4.5) —
filtering is a pure predicate over decoded records, pagination is 1-indexed
with `perPage` items per page, and `total` is the count of records matching
the filter. -/
def queryPackets (records : List PacketRecord) (φ : PacketRecord → Bool)
    (page perPage : Nat) : QueryResult :=
  let filtered := records.filter φ
  { items := (filtered.drop ((page - 1) * perPage)).take perPage,
    total := filtered.length }

/-- The number of pages needed to show `total` records at `perPage` records a
page: the ceiling of `total / perPage`. -/
def pageCount (total perPage : Nat) : Nat := (total + perPage - 1) / perPage

/-! ## Frontend pager (embedded from the `PacketTable` component source) -/

/-- One fetched page of the packet list, as the dashboard sees it. -/
structure PageData where
  items : List Nat
  deriving Repr, DecidableEq

/-- Page size used by the packet-list pager (`PAGE_SIZE` in the component). -/
def PAGE_SIZE : Nat := 25

/-- URL built by the pager for a given 1-indexed page and filter query. -/
def pageUrl (page : Nat) (q : String) : String :=
  "/api/packets?page=" ++ toString page ++ "&perPage=" ++ toString PAGE_SIZE ++ q

/-- Embedded from the `PacketTable` component: `getKey` returns `none`
(`null`) when the previously fetched page exists and has an empty items
list, and otherwise the URL for 1-indexed page `pageIndex + 1`. -/
def getKey (pageIndex : Nat) (previousPageData : Option PageData) (q : String) :
    Option String :=
  match previousPageData with
  | some prev => if prev.items.length = 0 then none else some (pageUrl (pageIndex + 1) q)
  | none => some (pageUrl (pageIndex + 1) q)

/-- The sequence of pages the infinite pager fetches, given the server's
response for each 0-based page index: page `n` is fetched only when `getKey`
applied to the previously fetched page data yields a key. -/
def fetchPages (responses : Nat → PageData) (q : String) : Nat → List PageData
  | 0 => []
  | n + 1 =>
    let prev := fetchPages responses q n
    match getKey n prev.getLast? q with
    | none => prev
    | some _ => prev ++ [responses n]

/-- Embedded from the `PacketTable` component: `hasMore` is true exactly when
the most recently fetched page holds `PAGE_SIZE` items. -/
def hasMore (data : List PageData) : Bool :=
  ((data.getLast?.map fun p => p.items.length).getD 0) == PAGE_SIZE

/-- Embedded from the `PacketTable` component: the "Load more" button is
enabled only when not currently validating and `hasMore` holds. -/
def loadMoreEnabled (isValidating : Bool) (data : List PageData) : Bool :=
  !isValidating && hasMore data

/-! ## Capture Reader (modelled from the spec, §4.1) -/

/-- Capture container metadata (§3 CaptureMeta). -/
structure CaptureMeta where
  magic : List Nat
  bigEndian : Bool
  blockBased : Bool
  deriving Repr, DecidableEq

/-- Error taxonomy of the ingest path (§7). -/
inductive IngestError where
  | formatError
  | oversizeInput
  deriving Repr, DecidableEq

/-- Classic capture magic, little-endian byte order. -/
def MAGIC_LE : List Nat := [0xd4, 0xc3, 0xb2, 0xa1]

/-- Classic capture magic, big-endian byte order. -/
def MAGIC_BE : List Nat := [0xa1, 0xb2, 0xc3, 0xd4]

/-- Modern block-based capture magic. -/
def MAGIC_NG : List Nat := [0x0a, 0x0d, 0x0d, 0x0a]

/-- Modelled from the spec: `open` of the missing backend Capture Reader
(§4.1) — recognizes the two classic-format magic numbers and the modern
block-based magic; any other leading bytes fail with `FormatError`. -/
def openCapture (bytes : List Nat) : Except IngestError CaptureMeta :=
  if bytes.take 4 = MAGIC_LE then
    .ok { magic := MAGIC_LE, bigEndian := false, blockBased := false }
  else if bytes.take 4 = MAGIC_BE then
    .ok { magic := MAGIC_BE, bigEndian := true, blockBased := false }
  else if bytes.take 4 = MAGIC_NG then
    .ok { magic := MAGIC_NG, bigEndian := false, blockBased := true }
  else
    .error .formatError

/-- Little-endian 32-bit read of the first four bytes of a byte list. -/
def u32le (bytes : List Nat) : Nat :=
  bytes.getD 0 0 + 256 * bytes.getD 1 0 + 65536 * bytes.getD 2 0 +
    16777216 * bytes.getD 3 0

/-- Little-endian 32-bit encoding of a number below `2 ^ 32`. -/
def bytes32le (n : Nat) : List Nat :=
  [n % 256, n / 256 % 256, n / 65536 % 256, n / 16777216 % 256]

/-- Length of the capture container's global header. -/
def GLOBAL_HEADER_LEN : Nat := 24

/-- Length of a per-frame record header (timestamp seconds, timestamp
microseconds, captured length, original length — four 32-bit fields). -/
def FRAME_HEADER_LEN : Nat := 16

/-- Warning emitted when trailing bytes are shorter than one frame header. -/
def WARN_HEADER : String := "truncated frame header"

/-- Warning emitted when a frame record's declared length exceeds the
remaining bytes. -/
def WARN_BODY : String := "truncated frame record"

/-- Modelled from the spec: `frames()` of the missing backend Capture Reader
(§4.1) — reads length-prefixed frame records in one pass; when a record's
declared length would read past the end of the input (or the trailing bytes
are shorter than one frame header), reading stops and a truncation warning
is reported together with the frames produced so far. -/
def readFrames (bytes : List Nat) : List RawFrame × List String :=
  if bytes.length = 0 then ([], [])
  else if bytes.length < FRAME_HEADER_LEN then ([], [WARN_HEADER])
  else
    let declared := u32le (bytes.drop 8)
    let body := bytes.drop FRAME_HEADER_LEN
    if body.length < declared then ([], [WARN_BODY])
    else
      let fr : RawFrame :=
        { tsSec := u32le bytes, tsUsec := u32le (bytes.drop 4),
          origLen := u32le (bytes.drop 12), payload := body.take declared }
      let rest := readFrames (body.drop declared)
      (fr :: rest.fst, rest.snd)
termination_by bytes.length
decreasing_by
  simp only [List.length_drop]
  simp only [FRAME_HEADER_LEN] at *
  omega

/-- The byte encoding of one frame record: four little-endian 32-bit header
fields (seconds, microseconds, captured length, original length) followed by
the payload. -/
def encodeFrame (f : RawFrame) : List Nat :=
  bytes32le f.tsSec ++ bytes32le f.tsUsec ++ bytes32le f.payload.length ++
    bytes32le f.origLen ++ f.payload

/-- The byte encoding of a sequence of frame records. -/
def encodeFrames (fs : List RawFrame) : List Nat :=
  (fs.map encodeFrame).flatten

/-- A frame whose header fields all fit in 32 bits. -/
def FrameFits (f : RawFrame) : Prop :=
  f.tsSec < 4294967296 ∧ f.tsUsec < 4294967296 ∧
    f.payload.length < 4294967296 ∧ f.origLen < 4294967296

instance : DecidablePred FrameFits := fun f => by
  unfold FrameFits
  infer_instance

/-! ## Layer Decoder (modelled from the spec, §4.2) -/

/-- Decode-time sub-structure errors (§7 `UnsupportedLayerError`), absorbed
inside the decode boundary. -/
inductive LayerErr where
  | unsupportedLink
  | unsupportedNetwork
  | unsupportedTransport
  deriving Repr, DecidableEq

/-- Render a hardware address as a colon-separated byte string. -/
def fmtMac (bs : List Nat) : String :=
  String.intercalate ":" (bs.map toString)

/-- Render a dotted-decimal network address from its bytes. -/
def fmtIp4 (bs : List Nat) : String :=
  String.intercalate "." (bs.map toString)

/-- Render a shortened textual form of a 16-byte network address. -/
def fmtIp6 (bs : List Nat) : String :=
  String.intercalate ":" (bs.map toString)

/-- Modelled from the spec: link-layer decode of the missing backend Layer
Decoder (§4.2) — standard framing for link type 1, extracting addresses and
the type field; any other link type (or a frame too short for the framing)
is an unsupported-layer error. -/
def decodeLinkLayer (linkType : Nat) (bytes : List Nat) :
    Except LayerErr (LinkInfo × Nat × List Nat) :=
  if linkType = 1 then
    if bytes.length < 14 then .error .unsupportedLink
    else
      .ok ({ label := "Ethernet",
             src := some (fmtMac ((bytes.drop 6).take 6)),
             dst := some (fmtMac (bytes.take 6)) },
           256 * bytes.getD 12 0 + bytes.getD 13 0,
           bytes.drop 14)
  else .error .unsupportedLink

/-- Modelled from the spec: unwrap one or more tag layers (§4.2) before the
network layer — each tag holds the next type field and shifts the payload
by four bytes. -/
def unwrapTags (etherType : Nat) (bytes : List Nat) : Nat × List Nat :=
  if etherType = 33024 ∨ etherType = 34984 then
    if h : bytes.length < 4 then (etherType, bytes)
    else unwrapTags (256 * bytes.getD 2 0 + bytes.getD 3 0) (bytes.drop 4)
  else (etherType, bytes)
termination_by bytes.length
decreasing_by
  simp only [List.length_drop]
  omega

/-- Modelled from the spec: network-layer decode of the missing backend Layer
Decoder (§4.2) — the two common network-layer versions are supported,
extracting addresses, the protocol/next-header field, TTL/hop limit and a
fragmentation flag; any other type is an unsupported-layer error. -/
def decodeNetworkLayer (etherType : Nat) (bytes : List Nat) :
    Except LayerErr (NetInfo × Nat × List Nat) :=
  if etherType = 2048 then
    if bytes.length < 20 then .error .unsupportedNetwork
    else
      let hdrLen := 4 * (bytes.getD 0 0 % 16)
      let proto := bytes.getD 9 0
      .ok ({ label := "IPv4", version := some 4,
             src := some (fmtIp4 ((bytes.drop 12).take 4)),
             dst := some (fmtIp4 ((bytes.drop 16).take 4)),
             proto := some proto, ttl := some (bytes.getD 8 0),
             frag := decide (bytes.getD 6 0 % 64 ≠ 0 ∨ bytes.getD 7 0 ≠ 0) },
           proto, bytes.drop hdrLen)
  else if etherType = 34525 then
    if bytes.length < 40 then .error .unsupportedNetwork
    else
      let nextHdr := bytes.getD 6 0
      .ok ({ label := "IPv6", version := some 6,
             src := some (fmtIp6 ((bytes.drop 8).take 16)),
             dst := some (fmtIp6 ((bytes.drop 24).take 16)),
             proto := some nextHdr, ttl := some (bytes.getD 7 0),
             frag := false },
           nextHdr, bytes.drop 40)
  else .error .unsupportedNetwork

/-- Modelled from the spec: transport-layer decode of the missing backend
Layer Decoder (§4.2) — ports for the two common transport protocols, control
flags for the segment-oriented one; any other protocol number is an
unsupported-layer error. -/
def decodeTransportLayer (proto : Nat) (bytes : List Nat) :
    Except LayerErr TransInfo :=
  if proto = 6 then
    if bytes.length < 14 then .error .unsupportedTransport
    else
      .ok { label := "TCP",
            srcPort := some (256 * bytes.getD 0 0 + bytes.getD 1 0),
            dstPort := some (256 * bytes.getD 2 0 + bytes.getD 3 0),
            flags := some (bytes.getD 13 0) }
  else if proto = 17 then
    if bytes.length < 8 then .error .unsupportedTransport
    else
      .ok { label := "UDP",
            srcPort := some (256 * bytes.getD 0 0 + bytes.getD 1 0),
            dstPort := some (256 * bytes.getD 2 0 + bytes.getD 3 0),
            flags := none }
  else .error .unsupportedTransport

/-- The coarse link-layer value used when the link sub-structure cannot be
decoded: label "unknown", no address fields. -/
def linkUnknown : LinkInfo := { label := "unknown", src := none, dst := none }

/-- The coarse network-layer value used when the network sub-structure cannot
be decoded: label "other", no fields populated. -/
def netUnknown : NetInfo :=
  { label := "other", version := none, src := none, dst := none,
    proto := none, ttl := none, frag := false }

/-- The coarse transport-layer value used when the transport sub-structure
cannot be decoded: label "other", no fields populated. -/
def transUnknown : TransInfo :=
  { label := "other", srcPort := none, dstPort := none, flags := none }

/-- Link-layer step of the decode boundary: an unsupported-layer error
degrades to the coarse "unknown" link value with an opaque remainder. -/
def linkStep (linkType : Nat) (bytes : List Nat) : LinkInfo × Nat × List Nat :=
  match decodeLinkLayer linkType bytes with
  | .ok x => x
  | .error _ => (linkUnknown, 0, [])

/-- Network-layer step of the decode boundary: an unsupported-layer error
degrades to the coarse "other" network value. -/
def netStep (etherType : Nat) (bytes : List Nat) : NetInfo × Nat × List Nat :=
  match decodeNetworkLayer etherType bytes with
  | .ok x => x
  | .error _ => (netUnknown, 0, [])

/-- Transport-layer step of the decode boundary: an unsupported-layer error
degrades to the coarse "other" transport value. -/
def transStep (proto : Nat) (bytes : List Nat) : TransInfo :=
  match decodeTransportLayer proto bytes with
  | .ok x => x
  | .error _ => transUnknown

/-- Modelled from the spec: the deterministic application-summary rule table
(§4.2), keyed on transport ports — unmatched ports yield a generic
"<protocol> packet" string. -/
def appSummary (t : TransInfo) : String :=
  let isPort : Nat → Bool := fun p =>
    t.srcPort == some p || t.dstPort == some p
  if isPort 53 then "DNS"
  else if isPort 80 then "HTTP"
  else if isPort 443 then "HTTPS"
  else t.label ++ " packet"

/-- Modelled from the spec: `decode` of the missing backend Layer Decoder
(§4.2) — a total function from a raw frame (plus the container's declared
link type and the frame's sequence number) to a packet record; every
sub-structure failure is absorbed into a coarser label. -/
def decode (linkType : Nat) (seq : Nat) (f : RawFrame) : PacketRecord :=
  let ls := linkStep linkType f.payload
  let ub := unwrapTags ls.2.1 ls.2.2
  let ns := netStep ub.1 ub.2
  let t := transStep ns.2.1 ns.2.2
  { seq := seq,
    ts := (f.tsSec : Rat) + (f.tsUsec : Rat) / 1000000,
    size := f.payload.length,
    link := ls.1, network := ns.1, transport := t,
    app := appSummary t }

/-- Modelled from the spec: sequence numbers are assigned in arrival order
(§3) — frame `i` of the capture becomes record `i`. -/
def decodeSession (linkType : Nat) (frames : List RawFrame) : List PacketRecord :=
  ((List.range frames.length).zip frames).map fun p => decode linkType p.1 p.2

/-- Ordering of packet records by sequence number. -/
def seqLe (a b : PacketRecord) : Prop := a.seq ≤ b.seq

/-- Strict ordering of packet records by sequence number. -/
def seqLt (a b : PacketRecord) : Prop := a.seq < b.seq

instance : DecidableRel seqLe := fun a b => by
  unfold seqLe
  infer_instance

instance : IsTotal PacketRecord seqLe := ⟨fun a b => Nat.le_total a.seq b.seq⟩

instance : IsTrans PacketRecord seqLe := ⟨fun _ _ _ h1 h2 => Nat.le_trans h1 h2⟩

instance : IsAntisymm PacketRecord seqLt := ⟨fun _ _ h1 h2 => (Nat.lt_asymm h1 h2).elim⟩

/-- Modelled from the spec: reassembly into original sequence order (§5) —
records, in whatever completion order, are ordered by sequence number before
being handed downstream. -/
def reassemble (rs : List PacketRecord) : List PacketRecord :=
  rs.insertionSort seqLe

/-! ## Identity Resolver (modelled from the spec, §4.3) -/

/-- Modelled from the spec: an identity map entry (§3 IdentityEntry), keyed
by the (IP, MAC) pair, accumulating packet and byte counts with optional
hostname, vendor and user labels. -/
structure IdentityEntry where
  ip : String
  mac : String
  host : String
  vendor : String
  user : String
  packets : Nat
  bytes : Nat
  deriving Repr, DecidableEq

/-- The source and destination (IP, MAC) address pairs present in a record:
a pair is present only when both its network and hardware addresses are. -/
def addrPairs (r : PacketRecord) : List (String × String) :=
  (match r.network.src, r.link.src with
   | some ip, some mac => [(ip, mac)]
   | _, _ => []) ++
  (match r.network.dst, r.link.dst with
   | some ip, some mac => [(ip, mac)]
   | _, _ => [])

/-- Whether an identity entry is the one keyed by the given (IP, MAC) pair. -/
def keyMatches (p : String × String) (e : IdentityEntry) : Bool :=
  e.ip == p.1 && e.mac == p.2

/-- Modelled from the spec: the upsert at the heart of `observe` (§4.3) — if
an entry keyed by the (IP, MAC) pair exists its packet count grows by one and
its byte count by the record size, otherwise a fresh entry is appended with
empty hostname/vendor/user fields pending best-effort lookups. -/
def upsertEntry (m : List IdentityEntry) (p : String × String) (sz : Nat) :
    List IdentityEntry :=
  if m.any (keyMatches p) then
    m.map fun e =>
      if keyMatches p e then
        { e with packets := e.packets + 1, bytes := e.bytes + sz }
      else e
  else
    m ++ [{ ip := p.1, mac := p.2, host := "", vendor := "", user := "",
            packets := 1, bytes := sz }]

/-- Modelled from the spec: `observe(PacketRecord)` of the missing backend
Identity Resolver (§4.3) — upserts one entry per address pair present in the
record. -/
def observe (m : List IdentityEntry) (r : PacketRecord) : List IdentityEntry :=
  (addrPairs r).foldl (fun acc p => upsertEntry acc p r.size) m

/-- The identity map accumulated over a whole record collection. -/
def identityMap (rs : List PacketRecord) : List IdentityEntry :=
  rs.foldl observe []

/-! ## Aggregator (modelled from the spec, §4.4) -/

/-- The network addresses mentioned by one record. -/
def ipsOf (r : PacketRecord) : List String :=
  r.network.src.toList ++ r.network.dst.toList

/-- The hardware addresses mentioned by one record. -/
def macsOf (r : PacketRecord) : List String :=
  r.link.src.toList ++ r.link.dst.toList

/-- Overview block of the summary statistics (§3 SummaryStats). -/
structure Overview where
  totalPackets : Nat
  totalBytes : Nat
  uniqueIps : Nat
  uniqueMacs : Nat
  durationSec : Rat
  deriving Repr, DecidableEq

/-- Modelled from the spec: the overview of the missing backend Aggregator
(§4.4) — total packets is the record count, total bytes the sum of sizes,
unique IP/MAC the distinct address cardinalities, and the duration the last
record's timestamp minus the first record's. -/
def overview (rs : List PacketRecord) : Overview :=
  { totalPackets := rs.length,
    totalBytes := (rs.map fun r => r.size).sum,
    uniqueIps := ((rs.map ipsOf).flatten.dedup).length,
    uniqueMacs := ((rs.map macsOf).flatten.dedup).length,
    durationSec := (rs.getLastD dummyRecord).ts - (rs.headD dummyRecord).ts }

/-- One protocol-distribution entry (label, count, rounded percentage). -/
structure PDEntry where
  protocol : String
  count : Nat
  pct : Rat
  deriving Repr, DecidableEq

/-- Rounding to the fixed two-decimal precision used for percentages. -/
def roundTo2 (q : Rat) : Rat := (round (q * 100) : Rat) / 100

/-- The order of the protocol distribution: descending by count, ties broken
by lexical label order. -/
def pdRel (a b : PDEntry) : Prop :=
  b.count < a.count ∨ (a.count = b.count ∧ a.protocol ≤ b.protocol)

instance : DecidableRel pdRel := fun a b => by
  unfold pdRel
  infer_instance

instance : IsTotal PDEntry pdRel :=
  ⟨fun a b => by
    unfold pdRel
    rcases Nat.lt_trichotomy a.count b.count with h | h | h
    · exact Or.inr (Or.inl h)
    · rcases le_total a.protocol b.protocol with hl | hl
      · exact Or.inl (Or.inr ⟨h, hl⟩)
      · exact Or.inr (Or.inr ⟨h.symm, hl⟩)
    · exact Or.inl (Or.inl h)⟩

instance : IsTrans PDEntry pdRel :=
  ⟨fun a b c hab hbc => by
    unfold pdRel at *
    rcases hab with h1 | ⟨h1, l1⟩
    · rcases hbc with h2 | ⟨h2, l2⟩
      · exact Or.inl (Nat.lt_trans h2 h1)
      · exact Or.inl (h2 ▸ h1)
    · rcases hbc with h2 | ⟨h2, l2⟩
      · exact Or.inl (h1 ▸ h2)
      · exact Or.inr ⟨h1.trans h2, le_trans l1 l2⟩⟩

/-- Modelled from the spec: the protocol distribution of the missing backend
Aggregator (§4.4) — group records by label, percentage `100 × count ÷ total`
rounded to a fixed precision, sorted descending by count with ties broken by
lexical label order. -/
def protocolDistribution (labels : List String) : List PDEntry :=
  let base := labels.dedup.map fun l =>
    { protocol := l, count := labels.count l,
      pct := roundTo2 (100 * (labels.count l : Rat) / labels.length) }
  base.insertionSort pdRel

/-- One size-histogram bin: the bin interval and count, plus the
dataset-wide min, max, mean, median and 95th percentile repeated per the
required output shape. -/
structure SizeBin where
  lo : Nat
  hi : Nat
  count : Nat
  mn : Nat
  mx : Nat
  mean : Rat
  median : Rat
  p95 : Rat
  deriving Repr, DecidableEq

/-- The fixed number of size-histogram bins. -/
def NUM_BINS : Nat := 10

/-- The dataset-wide size statistics, computed once over the full sorted
size list. -/
def sizeStats (sizes : List Nat) : Nat × Nat × Rat × Rat × Rat :=
  let s := sizes.insertionSort (· ≤ ·)
  (s.headD 0, s.getLastD 0,
   (sizes.sum : Rat) / sizes.length,
   (s.getD (s.length / 2) 0 : Rat),
   (s.getD (min (s.length - 1) (95 * s.length / 100)) 0 : Rat))

/-- Modelled from the spec: the size histogram of the missing backend
Aggregator (§4.4) — a fixed number of equal-width bins spanning the observed
size range, each bin reporting its count plus the dataset-wide statistics
computed once over the full sorted size list and repeated identically in
every bin entry. -/
def sizeHistogram (sizes : List Nat) : List SizeBin :=
  let st := sizeStats sizes
  let mn := st.1
  let mx := st.2.1
  let w := (mx - mn) / NUM_BINS + 1
  (List.range NUM_BINS).map fun i =>
    { lo := mn + i * w, hi := mn + (i + 1) * w,
      count := sizes.countP fun s =>
        decide (mn + i * w ≤ s) && decide (s < mn + (i + 1) * w),
      mn := mn, mx := mx, mean := st.2.2.1, median := st.2.2.2.1,
      p95 := st.2.2.2.2 }

/-! ## Session ingest (modelled from the spec, §4.1, §6 and the session
state machine) -/

/-- A completed analysis session (§3 AnalysisSession): capture metadata, the
ordered record collection, its identity map and warnings. -/
structure Session where
  meta : CaptureMeta
  records : List PacketRecord
  identity : List IdentityEntry
  warnings : List String
  deriving Repr, DecidableEq

/-- Modelled from the spec: the ingest pipeline (§6 `ingest`): reject
oversized input before parsing, validate the container header, read frames
until exhaustion or truncation, decode in arrival order. Truncation is not
fatal; a header or size failure rejects the whole ingest. -/
def ingestBytes (maxSize : Nat) (bytes : List Nat) : Except IngestError Session :=
  if maxSize < bytes.length then .error .oversizeInput
  else
    match openCapture bytes with
    | .error e => .error e
    | .ok meta =>
      let fw := readFrames (bytes.drop GLOBAL_HEADER_LEN)
      let records := decodeSession 1 fw.fst
      .ok { meta := meta, records := records,
            identity := identityMap records, warnings := fw.snd }

/-- Modelled from the spec: the session registry update on ingest (§9) — a
successful ingest stores the new session under the supplied id; a failed
ingest leaves the registry untouched and returns no session id. -/
def ingestStore (store : List (String × Session)) (sid : String)
    (maxSize : Nat) (bytes : List Nat) :
    Except IngestError String × List (String × Session) :=
  match ingestBytes maxSize bytes with
  | .error e => (.error e, store)
  | .ok s => (.ok sid, (sid, s) :: store)

/-! ## Sample data -/

/-- A small sample record of a given sequence number and size. -/
def sampleRecord (n sz : Nat) : PacketRecord :=
  { dummyRecord with seq := n, size := sz, app := "DNS" }

/-- A small sample record collection. -/
def sampleRecords : List PacketRecord :=
  [sampleRecord 0 60, sampleRecord 1 1500, sampleRecord 2 64,
   sampleRecord 3 80, sampleRecord 4 120]

/-- A sample packet filter: keep the records of at most 100 bytes. -/
def sampleFilter (r : PacketRecord) : Bool := decide (r.size ≤ 100)

/-- A small well-formed sample frame. -/
def sampleFrame : RawFrame :=
  { tsSec := 1, tsUsec := 500000, origLen := 4, payload := [1, 2, 3, 4] }

/-- Twenty bytes of global-header padding after the magic number. -/
def pad20 : List Nat := List.replicate 20 0

/-- Sixteen trailing bytes forming a frame header that declares 99 payload
bytes while none remain. -/
def bad16 : List Nat := [0, 0, 0, 0, 0, 0, 0, 0, 99, 0, 0, 0, 0, 0, 0, 0]

/-- The three-frame scenario of the spec: sizes 60, 1500 and 64 bytes at
t = 0, 0.5 and 1.5 seconds. -/
def scenarioRecords : List PacketRecord :=
  [{ dummyRecord with seq := 0, ts := 0, size := 60 },
   { dummyRecord with seq := 1, ts := 1 / 2, size := 1500 },
   { dummyRecord with seq := 2, ts := 3 / 2, size := 64 }]

/-- A record that mentions only a source address pair. -/
def srcRecord (ip mac : String) (sz : Nat) : PacketRecord :=
  { dummyRecord with
      size := sz,
      link := { label := "Ethernet", src := some mac, dst := none },
      network := { dummyRecord.network with src := some ip, dst := none } }

end NTA

namespace NTA

/-! ## Helper lemmas -/

/-- Splitting a list into `n` consecutive chunks of width `p` and joining
them gives back the list, as soon as `n` chunks suffice to cover it. -/
theorem chunks_join (p : Nat) :
    ∀ (n : Nat) (l : List PacketRecord), l.length ≤ n * p →
      ((List.range n).map fun i => (l.drop (i * p)).take p).flatten = l := by
  intro n
  induction n with
  | zero =>
    intro l hl
    simp only [Nat.zero_mul, Nat.le_zero] at hl
    simp [List.eq_nil_of_length_eq_zero hl]
  | succ n ih =>
    intro l hl
    rw [List.range_succ_eq_map]
    simp only [List.map_cons, List.map_map, List.flatten_cons, Nat.zero_mul,
      List.drop_zero]
    have hstep : ∀ i : Nat,
        ((l.drop ((i + 1) * p)).take p) = (((l.drop p).drop (i * p)).take p) := by
      intro i
      rw [Nat.succ_mul i p, List.drop_drop, Nat.add_comm]
    have hmap :
        (List.map ((fun i => (l.drop (i * p)).take p) ∘ Nat.succ) (List.range n))
          = List.map (fun i => ((l.drop p).drop (i * p)).take p) (List.range n) := by
      apply List.map_congr_left
      intro i _
      simpa using hstep i
    rw [Nat.succ_mul] at hl
    rw [hmap, ih (l.drop p) (by simp only [List.length_drop]; omega)]
    exact List.take_append_drop p l

/-- `pageCount` pages of width `perPage` cover `total` records. -/
theorem le_pageCount_mul (total perPage : Nat) (hp : 0 < perPage) :
    total ≤ pageCount total perPage * perPage := by
  unfold pageCount
  have hdm := Nat.div_add_mod (total + perPage - 1) perPage
  have hlt : (total + perPage - 1) % perPage < perPage :=
    Nat.mod_lt _ hp
  rw [Nat.mul_comm]
  generalize hq : perPage * ((total + perPage - 1) / perPage) = t at hdm
  omega

end NTA

namespace NTA

/-- Structural invariant of the pager's fetch sequence: the fetched pages
are exactly the server's responses to a prefix of the page indices, at most
one per attempt, and a fetch sequence shorter than the attempt count has
stalled on an empty final page. -/
theorem fetchPages_inv (responses : Nat → PageData) (q : String) :
    ∀ n : Nat,
      fetchPages responses q n =
        (List.range (fetchPages responses q n).length).map responses
      ∧ (fetchPages responses q n).length ≤ n
      ∧ ((fetchPages responses q n).length < n →
          ∃ pg, (fetchPages responses q n).getLast? = some pg ∧ pg.items = []) := by
  intro n
  induction n with
  | zero => simp [fetchPages]
  | succ n ih =>
    obtain ⟨ha, hb, hc⟩ := ih
    have hstep : fetchPages responses q (n + 1) =
        match getKey n (fetchPages responses q n).getLast? q with
        | none => fetchPages responses q n
        | some _ => fetchPages responses q n ++ [responses n] := rfl
    rcases hk : getKey n (fetchPages responses q n).getLast? q with _ | key
    · have hstep2 : fetchPages responses q (n + 1) = fetchPages responses q n := by
        rw [hstep, hk]
      rw [hstep2]
      refine ⟨ha, by omega, ?_⟩
      intro _
      rcases Nat.lt_or_ge (fetchPages responses q n).length n with hlt | hge
      · exact hc hlt
      · rcases hn : (fetchPages responses q n).getLast? with _ | pg
        · rw [hn] at hk
          simp [getKey] at hk
        · refine ⟨pg, rfl, ?_⟩
          rw [hn] at hk
          by_cases hempty : pg.items.length = 0
          · exact List.length_eq_zero.mp hempty
          · simp [getKey, hempty] at hk
    · have hstep2 : fetchPages responses q (n + 1) =
          fetchPages responses q n ++ [responses n] := by
        rw [hstep, hk]
      have hLn : (fetchPages responses q n).length = n := by
        rcases Nat.lt_or_ge (fetchPages responses q n).length n with hlt | hge
        · obtain ⟨pg, hpg, hpgE⟩ := hc hlt
          rw [hpg] at hk
          simp [getKey, hpgE] at hk
        · exact Nat.le_antisymm hb hge
      rw [hLn] at ha
      rw [hstep2]
      refine ⟨?_, by simp [hLn], by simp [hLn]⟩
      rw [List.length_append, List.length_singleton, hLn, List.range_succ,
        List.map_append, ← ha]
      simp

/-- The final element of mapping a function over `range (k + 1)`. -/
theorem getLast_range_map (f : Nat → PageData) (k : Nat) :
    ((List.range (k + 1)).map f).getLast? = some (f k) := by
  rw [List.range_succ, List.map_append]
  simp

/-- After the server answers some page index with an empty items list, the
pager never holds more pages than that index plus one. -/
theorem fetchPages_stops (responses : Nat → PageData) (q : String) (j : Nat)
    (hj : (responses j).items = []) :
    ∀ n : Nat, (fetchPages responses q n).length ≤ j + 1 := by
  intro n
  induction n with
  | zero => simp [fetchPages]
  | succ n ih =>
    obtain ⟨ha, hb, hc⟩ := fetchPages_inv responses q n
    have hstep : fetchPages responses q (n + 1) =
        match getKey n (fetchPages responses q n).getLast? q with
        | none => fetchPages responses q n
        | some _ => fetchPages responses q n ++ [responses n] := rfl
    rcases hk : getKey n (fetchPages responses q n).getLast? q with _ | key
    · have hstep2 : fetchPages responses q (n + 1) = fetchPages responses q n := by
        rw [hstep, hk]
      rw [hstep2]
      exact ih
    · have hstep2 : fetchPages responses q (n + 1) =
          fetchPages responses q n ++ [responses n] := by
        rw [hstep, hk]
      have hLn : (fetchPages responses q n).length = n := by
        rcases Nat.lt_or_ge (fetchPages responses q n).length n with hlt | hge
        · obtain ⟨pg, hpg, hpgE⟩ := hc hlt
          rw [hpg] at hk
          simp [getKey, hpgE] at hk
        · exact Nat.le_antisymm hb hge
      have hLj : (fetchPages responses q n).length ≠ j + 1 := by
        intro hcon
        have hlast : (fetchPages responses q n).getLast? = some (responses j) := by
          conv_lhs => rw [ha]
          rw [hcon]
          exact getLast_range_map responses j
        rw [hlast] at hk
        simp [getKey, hj] at hk
      rw [hstep2]
      simp only [List.length_append, List.length_singleton]
      omega

end NTA

namespace NTA

/-- C1: for every completed session and fixed filter, concatenating the
`getPackets` pages 1 through `ceil(total/perPage)` yields exactly the full
filtered record set — no record duplicated, none omitted — and the returned
total equals the count of matching records regardless of the page size. -/
theorem claim1_getPackets_pagination (records : List PacketRecord)
    (φ : PacketRecord → Bool) (perPage : Nat) (hp : 0 < perPage) :
    ((List.range (pageCount (records.filter φ).length perPage)).map fun i =>
        (queryPackets records φ (i + 1) perPage).items).flatten
      = records.filter φ
    ∧ ∀ page : Nat,
        (queryPackets records φ page perPage).total = (records.filter φ).length := by
  constructor
  · have hcov := le_pageCount_mul (records.filter φ).length perPage hp
    have hjoin := chunks_join perPage
      (pageCount (records.filter φ).length perPage) (records.filter φ) hcov
    simpa [queryPackets] using hjoin
  · intro page
    rfl

/-- Witness for C1 at a concrete record set and page size 2. -/
theorem claim1_getPackets_pagination_witness :
    0 < 2 ∧
    (((List.range (pageCount (sampleRecords.filter sampleFilter).length 2)).map fun i =>
        (queryPackets sampleRecords sampleFilter (i + 1) 2).items).flatten
      = sampleRecords.filter sampleFilter
    ∧ ∀ page : Nat,
        (queryPackets sampleRecords sampleFilter page 2).total
          = (sampleRecords.filter sampleFilter).length) :=
  ⟨by decide, claim1_getPackets_pagination sampleRecords sampleFilter 2 (by decide)⟩

/-- C10: the packet-list pager's `getKey` requests consecutive 1-indexed
pages of fixed size 25 and returns `null` as soon as the previously fetched
page has an empty items list, so no page is ever requested after the first
empty page, and "Load more" is enabled only while the most recently fetched
page contains exactly 25 items. -/
theorem claim10_pager_behavior :
    (∀ (i : Nat) (prev : Option PageData) (q : String),
        getKey i prev q = none ∨ getKey i prev q = some (pageUrl (i + 1) q))
    ∧ (∀ (responses : Nat → PageData) (q : String) (j n : Nat),
        (responses j).items = [] → (fetchPages responses q n).length ≤ j + 1)
    ∧ (∀ (isValidating : Bool) (data : List PageData),
        loadMoreEnabled isValidating data = true →
          ∃ pg, data.getLast? = some pg ∧ pg.items.length = 25) := by
  refine ⟨?_, ?_, ?_⟩
  · intro i prev q
    rcases prev with _ | pg
    · exact Or.inr rfl
    · by_cases h : pg.items.length = 0
      · exact Or.inl (by simp [getKey, h])
      · exact Or.inr (by simp [getKey, h])
  · intro responses q j n hj
    exact fetchPages_stops responses q j hj n
  · intro isValidating data hen
    simp only [loadMoreEnabled, Bool.and_eq_true] at hen
    obtain ⟨-, hm⟩ := hen
    unfold hasMore at hm
    rcases hd : data.getLast? with _ | pg
    · rw [hd] at hm
      simp [PAGE_SIZE] at hm
    · refine ⟨pg, rfl, ?_⟩
      rw [hd] at hm
      simpa [PAGE_SIZE] using hm

/-- Witness for C10 at a concrete response sequence: the server has 25 items
on page 0, 3 items on page 1 and nothing afterwards. -/
theorem claim10_pager_behavior_witness :
    ((fetchPages
        (fun i => if i = 0 then ⟨(List.range 25).map fun k => k⟩
                  else if i = 1 then ⟨[1, 2, 3]⟩ else ⟨[]⟩)
        "" 6).length ≤ 3)
    ∧ (∃ pg, ([(⟨(List.range 25).map fun k => k⟩ : PageData)].getLast? = some pg
        ∧ pg.items.length = 25)) := by
  constructor
  · exact claim10_pager_behavior.2.1
      (fun i => if i = 0 then ⟨(List.range 25).map fun k => k⟩
                else if i = 1 then ⟨[1, 2, 3]⟩ else ⟨[]⟩) "" 2 6 (by decide)
  · exact claim10_pager_behavior.2.2 false
      [⟨(List.range 25).map fun k => k⟩] (by decide)

end NTA

namespace NTA

/-- C3: for every input whose leading bytes are not one of the two
classic-format magic numbers or the modern block-based magic, `open` fails
with `FormatError`, the whole ingest is rejected, and no session — not even
a partial one — is created. -/
theorem claim3_bad_magic_rejected (store : List (String × Session))
    (sid : String) (maxSize : Nat) (bytes : List Nat)
    (h1 : bytes.take 4 ≠ MAGIC_LE) (h2 : bytes.take 4 ≠ MAGIC_BE)
    (h3 : bytes.take 4 ≠ MAGIC_NG) :
    openCapture bytes = .error .formatError
    ∧ (∃ e, (ingestStore store sid maxSize bytes).1 = .error e)
    ∧ (ingestStore store sid maxSize bytes).2 = store := by
  have hopen : openCapture bytes = .error .formatError := by
    simp [openCapture, h1, h2, h3]
  have hbytes : ingestBytes maxSize bytes = .error .formatError
      ∨ ingestBytes maxSize bytes = .error .oversizeInput := by
    unfold ingestBytes
    by_cases hsz : maxSize < bytes.length
    · simp [hsz]
    · simp [hsz, hopen]
  rcases hbytes with hi | hi
  · exact ⟨hopen, ⟨.formatError, by simp [ingestStore, hi]⟩, by simp [ingestStore, hi]⟩
  · exact ⟨hopen, ⟨.oversizeInput, by simp [ingestStore, hi]⟩, by simp [ingestStore, hi]⟩

/-- Witness for C3 at a concrete four-zero-byte input. -/
theorem claim3_bad_magic_rejected_witness :
    ([0, 0, 0, 0] : List Nat).take 4 ≠ MAGIC_LE
    ∧ ([0, 0, 0, 0] : List Nat).take 4 ≠ MAGIC_BE
    ∧ ([0, 0, 0, 0] : List Nat).take 4 ≠ MAGIC_NG
    ∧ (openCapture [0, 0, 0, 0] = .error .formatError
      ∧ (∃ e, (ingestStore [] "s1" 1000 [0, 0, 0, 0]).1 = .error e)
      ∧ (ingestStore [] "s1" 1000 [0, 0, 0, 0]).2 = []) :=
  ⟨by decide, by decide, by decide,
    claim3_bad_magic_rejected [] "s1" 1000 [0, 0, 0, 0]
      (by decide) (by decide) (by decide)⟩

end NTA

namespace NTA

/-- Reading a little-endian 32-bit field back from its encoding. -/
theorem u32le_bytes32le (n : Nat) (h : n < 4294967296) (l : List Nat) :
    u32le (bytes32le n ++ l) = n := by
  simp only [bytes32le, List.cons_append, List.nil_append, u32le,
    List.getD_cons_zero, List.getD_cons_succ]
  omega

/-- Reading one well-formed encoded frame record consumes exactly that
record and continues with the remaining bytes. -/
theorem readFrames_encodeFrame (f : RawFrame) (hf : FrameFits f)
    (rest : List Nat) :
    readFrames (encodeFrame f ++ rest)
      = (f :: (readFrames rest).1, (readFrames rest).2) := by
  obtain ⟨h1, h2, h3, h4⟩ := hf
  have hB : encodeFrame f ++ rest
      = bytes32le f.tsSec ++ (bytes32le f.tsUsec ++ (bytes32le f.payload.length ++
          (bytes32le f.origLen ++ (f.payload ++ rest)))) := by
    simp [encodeFrame, List.append_assoc]
  have hlen : (bytes32le f.tsSec ++ (bytes32le f.tsUsec ++
      (bytes32le f.payload.length ++ (bytes32le f.origLen ++ (f.payload ++ rest))))).length
      = 16 + (f.payload.length + rest.length) := by
    simp [bytes32le]
    omega
  have hdrop8 : (bytes32le f.tsSec ++ (bytes32le f.tsUsec ++
      (bytes32le f.payload.length ++ (bytes32le f.origLen ++ (f.payload ++ rest))))).drop 8
      = bytes32le f.payload.length ++ (bytes32le f.origLen ++ (f.payload ++ rest)) := by
    simp [bytes32le]
  have hdrop4 : (bytes32le f.tsSec ++ (bytes32le f.tsUsec ++
      (bytes32le f.payload.length ++ (bytes32le f.origLen ++ (f.payload ++ rest))))).drop 4
      = bytes32le f.tsUsec ++ (bytes32le f.payload.length ++
          (bytes32le f.origLen ++ (f.payload ++ rest))) := by
    simp [bytes32le]
  have hdrop12 : (bytes32le f.tsSec ++ (bytes32le f.tsUsec ++
      (bytes32le f.payload.length ++ (bytes32le f.origLen ++ (f.payload ++ rest))))).drop 12
      = bytes32le f.origLen ++ (f.payload ++ rest) := by
    simp [bytes32le]
  have hdrop16 : (bytes32le f.tsSec ++ (bytes32le f.tsUsec ++
      (bytes32le f.payload.length ++ (bytes32le f.origLen ++ (f.payload ++ rest))))).drop 16
      = f.payload ++ rest := by
    simp [bytes32le]
  have hdecl : u32le (bytes32le f.payload.length ++
      (bytes32le f.origLen ++ (f.payload ++ rest))) = f.payload.length :=
    u32le_bytes32le _ h3 _
  have e1 : u32le (bytes32le f.tsSec ++ (bytes32le f.tsUsec ++
      (bytes32le f.payload.length ++ (bytes32le f.origLen ++ (f.payload ++ rest)))))
      = f.tsSec := u32le_bytes32le _ h1 _
  have e2 : u32le (bytes32le f.tsUsec ++ (bytes32le f.payload.length ++
      (bytes32le f.origLen ++ (f.payload ++ rest)))) = f.tsUsec :=
    u32le_bytes32le _ h2 _
  have e4 : u32le (bytes32le f.origLen ++ (f.payload ++ rest)) = f.origLen :=
    u32le_bytes32le _ h4 _
  have hc0 : ¬ ((bytes32le f.tsSec ++ (bytes32le f.tsUsec ++
      (bytes32le f.payload.length ++ (bytes32le f.origLen ++ (f.payload ++ rest))))).length = 0) := by
    rw [hlen]; omega
  have hc1 : ¬ ((bytes32le f.tsSec ++ (bytes32le f.tsUsec ++
      (bytes32le f.payload.length ++ (bytes32le f.origLen ++ (f.payload ++ rest))))).length
        < 16) := by
    rw [hlen]; omega
  have hc2 : ¬ ((f.payload ++ rest).length < f.payload.length) := by
    simp
  rw [readFrames, hB, show FRAME_HEADER_LEN = 16 from rfl]
  rw [hdrop8, hdecl, hdrop16, hdrop4, hdrop12]
  rw [if_neg hc0, if_neg hc1, if_neg hc2]
  dsimp only
  rw [e1, e2, e4, List.take_left, List.drop_left]

end NTA

namespace NTA

/-- Reading a sequence of well-formed encoded frame records followed by a
tail recovers exactly those records, continuing into the tail. -/
theorem readFrames_encodeFrames (fs : List RawFrame)
    (hfs : ∀ f ∈ fs, FrameFits f) (tail : List Nat) :
    readFrames (encodeFrames fs ++ tail)
      = (fs ++ (readFrames tail).1, (readFrames tail).2) := by
  induction fs with
  | nil => simp [encodeFrames]
  | cons f fs ih =>
    have hform : encodeFrames (f :: fs) ++ tail
        = encodeFrame f ++ (encodeFrames fs ++ tail) := by
      simp [encodeFrames, List.append_assoc]
    rw [hform, readFrames_encodeFrame f (hfs f (by simp)),
      ih (fun g hg => hfs g (by simp [hg]))]
    simp

/-- A tail whose first record header declares more bytes than remain makes
the reader stop with a truncation warning and no further frames. -/
theorem readFrames_truncated (bad : List Nat)
    (h16 : 16 ≤ bad.length) (hdecl : bad.length - 16 < u32le (bad.drop 8)) :
    readFrames bad = ([], [WARN_BODY]) := by
  rw [readFrames]
  have hc0 : ¬ bad.length = 0 := by omega
  have hc1 : ¬ bad.length < FRAME_HEADER_LEN := by
    simp only [FRAME_HEADER_LEN]; omega
  have hc2 : (bad.drop FRAME_HEADER_LEN).length < u32le (bad.drop 8) := by
    simp only [FRAME_HEADER_LEN, List.length_drop]
    omega
  rw [if_neg hc0, if_neg hc1, if_pos hc2]

/-- Decoding preserves the frame count: one record per frame. -/
theorem decodeSession_length (lt : Nat) (frames : List RawFrame) :
    (decodeSession lt frames).length = frames.length := by
  simp [decodeSession]

end NTA

namespace NTA

/-- C4: for every input with a valid header followed by a frame record whose
declared length exceeds the remaining bytes, reading stops at that record,
the reader reports the frames produced before the truncation together with a
non-empty truncation warning, and ingestion still completes successfully. -/
theorem claim4_truncation_not_fatal (frames : List RawFrame)
    (pad bad : List Nat) (maxSize : Nat)
    (hfs : ∀ f ∈ frames, FrameFits f) (hpad : pad.length = 20)
    (h16 : 16 ≤ bad.length) (hdecl : bad.length - 16 < u32le (bad.drop 8))
    (hsz : (MAGIC_LE ++ (pad ++ (encodeFrames frames ++ bad))).length ≤ maxSize) :
    readFrames (encodeFrames frames ++ bad) = (frames, [WARN_BODY])
    ∧ ∃ s, ingestBytes maxSize (MAGIC_LE ++ (pad ++ (encodeFrames frames ++ bad))) = .ok s
        ∧ s.records.length = frames.length
        ∧ s.warnings = [WARN_BODY]
        ∧ s.warnings ≠ [] := by
  have hread : readFrames (encodeFrames frames ++ bad) = (frames, [WARN_BODY]) := by
    rw [readFrames_encodeFrames frames hfs bad, readFrames_truncated bad h16 hdecl]
    simp
  refine ⟨hread, ?_⟩
  have hmagic : (MAGIC_LE ++ (pad ++ (encodeFrames frames ++ bad))).take 4 = MAGIC_LE := by
    have : MAGIC_LE.length = 4 := by decide
    rw [← this, List.take_left]
  have hopen : openCapture (MAGIC_LE ++ (pad ++ (encodeFrames frames ++ bad)))
      = .ok { magic := MAGIC_LE, bigEndian := false, blockBased := false } := by
    rw [openCapture, if_pos hmagic]
  have hdrop : (MAGIC_LE ++ (pad ++ (encodeFrames frames ++ bad))).drop GLOBAL_HEADER_LEN
      = encodeFrames frames ++ bad := by
    have hre : MAGIC_LE ++ (pad ++ (encodeFrames frames ++ bad))
        = (MAGIC_LE ++ pad) ++ (encodeFrames frames ++ bad) := by
      rw [List.append_assoc]
    have hl : (MAGIC_LE ++ pad).length = GLOBAL_HEADER_LEN := by
      simp [hpad, MAGIC_LE, GLOBAL_HEADER_LEN]
    rw [hre, ← hl, List.drop_left]
  have hnotover : ¬ maxSize < (MAGIC_LE ++ (pad ++ (encodeFrames frames ++ bad))).length := by
    omega
  have hing : ingestBytes maxSize (MAGIC_LE ++ (pad ++ (encodeFrames frames ++ bad)))
      = .ok { meta := { magic := MAGIC_LE, bigEndian := false, blockBased := false },
              records := decodeSession 1 frames,
              identity := identityMap (decodeSession 1 frames),
              warnings := [WARN_BODY] } := by
    rw [ingestBytes, if_neg hnotover, hopen]
    dsimp only
    rw [hdrop, hread]
  exact ⟨_, hing, by simp [decodeSession_length], rfl, by simp⟩

end NTA

namespace NTA

/-- Witness for C4: one well-formed frame followed by a record header that
declares 99 bytes with none remaining. -/
theorem claim4_truncation_not_fatal_witness :
    (∀ f ∈ [sampleFrame], FrameFits f)
    ∧ pad20.length = 20
    ∧ 16 ≤ bad16.length
    ∧ bad16.length - 16 < u32le (bad16.drop 8)
    ∧ (MAGIC_LE ++ (pad20 ++ (encodeFrames [sampleFrame] ++ bad16))).length ≤ 1000
    ∧ (readFrames (encodeFrames [sampleFrame] ++ bad16) = ([sampleFrame], [WARN_BODY])
      ∧ ∃ s, ingestBytes 1000 (MAGIC_LE ++ (pad20 ++ (encodeFrames [sampleFrame] ++ bad16)))
            = .ok s
          ∧ s.records.length = [sampleFrame].length
          ∧ s.warnings = [WARN_BODY]
          ∧ s.warnings ≠ []) :=
  ⟨by decide, by decide, by decide, by decide, by decide,
    claim4_truncation_not_fatal [sampleFrame] pad20 bad16 1000
      (by decide) (by decide) (by decide) (by decide) (by decide)⟩

end NTA

namespace NTA

/-- C2: decode is total — every raw frame yields a packet record, one record
per frame, no error propagating past the decode boundary — and a link,
network, or transport sub-structure that cannot be decoded degrades to the
coarser "unknown"/"other" value with absent fields instead of aborting. -/
theorem claim2_decode_never_fails :
    (∀ (lt seq : Nat) (f : RawFrame), (decode lt seq f).size = f.payload.length)
    ∧ (∀ (lt : Nat) (frames : List RawFrame),
        (decodeSession lt frames).length = frames.length)
    ∧ (∀ (lt seq : Nat) (f : RawFrame),
        (decodeLinkLayer lt f.payload).isOk = false →
          (decode lt seq f).link = linkUnknown)
    ∧ (∀ (et : Nat) (bytes : List Nat),
        (decodeNetworkLayer et bytes).isOk = false →
          (netStep et bytes).1 = netUnknown)
    ∧ (∀ (p : Nat) (bytes : List Nat),
        (decodeTransportLayer p bytes).isOk = false →
          transStep p bytes = transUnknown) := by
  refine ⟨?_, ?_, ?_, ?_, ?_⟩
  · intro lt seq f
    rfl
  · intro lt frames
    exact decodeSession_length lt frames
  · intro lt seq f h
    rcases hd : decodeLinkLayer lt f.payload with e | x
    · simp [decode, linkStep, hd]
    · rw [hd] at h
      simp [Except.isOk, Except.toBool] at h
  · intro et bytes h
    rcases hd : decodeNetworkLayer et bytes with e | x
    · simp [netStep, hd]
    · rw [hd] at h
      simp [Except.isOk, Except.toBool] at h
  · intro p bytes h
    rcases hd : decodeTransportLayer p bytes with e | x
    · simp [transStep, hd]
    · rw [hd] at h
      simp [Except.isOk, Except.toBool] at h

/-- Witness for C2 at concrete unsupported layer identifiers: link type 42,
network type 4660 and transport protocol 99 all degrade to coarse labels. -/
theorem claim2_decode_never_fails_witness :
    ((decodeLinkLayer 42 sampleFrame.payload).isOk = false
      ∧ (decode 42 0 sampleFrame).link = linkUnknown)
    ∧ ((decodeNetworkLayer 4660 [1, 2, 3]).isOk = false
      ∧ (netStep 4660 [1, 2, 3]).1 = netUnknown)
    ∧ ((decodeTransportLayer 99 [1, 2, 3]).isOk = false
      ∧ transStep 99 [1, 2, 3] = transUnknown) :=
  ⟨⟨by decide, claim2_decode_never_fails.2.2.1 42 0 sampleFrame (by decide)⟩,
    ⟨by decide, claim2_decode_never_fails.2.2.2.1 4660 [1, 2, 3] (by decide)⟩,
    ⟨by decide, claim2_decode_never_fails.2.2.2.2 99 [1, 2, 3] (by decide)⟩⟩

end NTA

namespace NTA

/-- The sequence numbers assigned by decoding are exactly `0, 1, 2, …` in
arrival order. -/
theorem decodeSession_map_seq (lt : Nat) (frames : List RawFrame) :
    (decodeSession lt frames).map (fun r => r.seq) = List.range frames.length := by
  unfold decodeSession
  rw [List.map_map]
  have hfun : ((fun r : PacketRecord => r.seq) ∘ fun p : Nat × RawFrame => decode lt p.1 p.2)
      = fun p : Nat × RawFrame => p.1 := by
    funext p
    simp [decode]
  rw [hfun]
  exact List.map_fst_zip _ _ (by simp)

/-- C8: within a session the retained records carry strictly increasing,
gap-free sequence numbers in arrival order, and any completion order of
concurrently decoded records reassembles — by sorting on sequence number —
into exactly that arrival-order collection before being handed downstream. -/
theorem claim8_seq_invariant :
    (∀ (lt : Nat) (frames : List RawFrame),
        (decodeSession lt frames).map (fun r => r.seq) = List.range frames.length)
    ∧ (∀ (lt : Nat) (frames : List RawFrame) (completed : List PacketRecord),
        completed.Perm (decodeSession lt frames) →
          reassemble completed = decodeSession lt frames) := by
  refine ⟨decodeSession_map_seq, ?_⟩
  intro lt frames completed hp
  have hseq : (decodeSession lt frames).map (fun r => r.seq)
      = List.range frames.length := decodeSession_map_seq lt frames
  have hnodup : ((decodeSession lt frames).map fun r => r.seq).Nodup := by
    rw [hseq]
    exact List.nodup_range _
  have hperm : (reassemble completed).Perm (decodeSession lt frames) :=
    (List.perm_insertionSort seqLe completed).trans hp
  have hsorted_le : List.Sorted seqLe (reassemble completed) :=
    List.sorted_insertionSort seqLe completed
  have hnodup2 : ((reassemble completed).map fun r => r.seq).Nodup :=
    ((hperm.map fun r => r.seq).nodup_iff).mpr hnodup
  have hne : (reassemble completed).Pairwise fun a b => a.seq ≠ b.seq :=
    List.pairwise_map.mp hnodup2
  have hsl : List.Sorted seqLt (reassemble completed) :=
    (hsorted_le.and hne).imp fun h => Nat.lt_of_le_of_ne h.1 h.2
  have hs2 : List.Sorted seqLt (decodeSession lt frames) := by
    have hr := List.pairwise_lt_range frames.length
    rw [← hseq] at hr
    have h2 : (decodeSession lt frames).Pairwise fun a b => a.seq < b.seq :=
      List.pairwise_map.mp hr
    exact h2
  exact List.eq_of_perm_of_sorted hperm hsl hs2

/-- Witness for C8: two decoded sample frames handed back in reversed
completion order reassemble into arrival order. -/
theorem claim8_seq_invariant_witness :
    ((decodeSession 1 [sampleFrame, sampleFrame]).reverse.Perm
        (decodeSession 1 [sampleFrame, sampleFrame]))
    ∧ reassemble (decodeSession 1 [sampleFrame, sampleFrame]).reverse
        = decodeSession 1 [sampleFrame, sampleFrame] :=
  ⟨List.reverse_perm _, claim8_seq_invariant.2 1 [sampleFrame, sampleFrame]
      (decodeSession 1 [sampleFrame, sampleFrame]).reverse (List.reverse_perm _)⟩

end NTA

namespace NTA

/-- C5: for every non-empty session, every entry of the size histogram
carries the same dataset-wide min, max, mean, median and 95th-percentile
values — computed once over the full sorted size list, not per bin — so all
bin entries agree on these five statistics. -/
theorem claim5_histogram_shared_stats (sizes : List Nat) (_hne : sizes ≠ []) :
    ∀ b1 ∈ sizeHistogram sizes, ∀ b2 ∈ sizeHistogram sizes,
      b1.mn = b2.mn ∧ b1.mx = b2.mx ∧ b1.mean = b2.mean
      ∧ b1.median = b2.median ∧ b1.p95 = b2.p95 := by
  intro b1 hb1 b2 hb2
  simp only [sizeHistogram, List.mem_map] at hb1 hb2
  obtain ⟨i1, -, hb1⟩ := hb1
  obtain ⟨i2, -, hb2⟩ := hb2
  subst hb1
  subst hb2
  exact ⟨rfl, rfl, rfl, rfl, rfl⟩

/-- Witness for C5 at the size list of the three-frame scenario. -/
theorem claim5_histogram_shared_stats_witness :
    ([60, 1500, 64] : List Nat) ≠ []
    ∧ ∀ b1 ∈ sizeHistogram [60, 1500, 64], ∀ b2 ∈ sizeHistogram [60, 1500, 64],
        b1.mn = b2.mn ∧ b1.mx = b2.mx ∧ b1.mean = b2.mean
        ∧ b1.median = b2.median ∧ b1.p95 = b2.p95 :=
  ⟨by decide, claim5_histogram_shared_stats [60, 1500, 64] (by decide)⟩

/-- C7: the overview equals the spec's formulas — packet count, byte sum,
distinct address cardinalities and last-minus-first duration (zero for a
single record) — and the three-frame scenario (60, 1500, 64 bytes at 0, 0.5
and 1.5 seconds) yields totalPackets 3, totalBytes 1624 and duration 1.5. -/
theorem claim7_overview_formulas :
    (∀ rs : List PacketRecord, (overview rs).totalPackets = rs.length)
    ∧ (∀ rs : List PacketRecord,
        (overview rs).totalBytes = (rs.map fun r => r.size).sum)
    ∧ (∀ rs : List PacketRecord,
        (overview rs).uniqueIps = ((rs.map ipsOf).flatten.dedup).length)
    ∧ (∀ rs : List PacketRecord,
        (overview rs).uniqueMacs = ((rs.map macsOf).flatten.dedup).length)
    ∧ (∀ rs : List PacketRecord,
        (overview rs).durationSec
          = (rs.getLastD dummyRecord).ts - (rs.headD dummyRecord).ts)
    ∧ (∀ r : PacketRecord, (overview [r]).durationSec = 0)
    ∧ (overview scenarioRecords).totalPackets = 3
    ∧ (overview scenarioRecords).totalBytes = 1624
    ∧ (overview scenarioRecords).durationSec = 3 / 2 := by
  refine ⟨fun rs => rfl, fun rs => rfl, fun rs => rfl, fun rs => rfl,
    fun rs => rfl, ?_, rfl, by decide, ?_⟩
  · intro r
    simp [overview]
  · show (3 : Rat) / 2 - 0 = 3 / 2
    norm_num

end NTA

namespace NTA

/-- C9: identity entries are keyed by the (IP, MAC) pair — `observe` upserts
one entry per address pair present in a record, incrementing its packet count
by one and its byte count by the record size — so two records sharing one
source IP but using two different MACs produce two identity-map entries while
the overview still counts that IP once. -/
theorem claim9_identity_keyed_by_pair (ip mac1 mac2 : String)
    (sz1 sz2 : Nat) (hmac : mac1 ≠ mac2) :
    (∀ (m : List IdentityEntry) (p : String × String) (sz : Nat),
        m.any (keyMatches p) = false →
          upsertEntry m p sz
            = m ++ [{ ip := p.1, mac := p.2, host := "", vendor := "",
                      user := "", packets := 1, bytes := sz }])
    ∧ (∀ (m : List IdentityEntry) (p : String × String) (sz : Nat)
        (e : IdentityEntry), e ∈ m → keyMatches p e = true →
          { e with packets := e.packets + 1, bytes := e.bytes + sz }
            ∈ upsertEntry m p sz)
    ∧ identityMap [srcRecord ip mac1 sz1, srcRecord ip mac2 sz2]
        = [{ ip := ip, mac := mac1, host := "", vendor := "", user := "",
             packets := 1, bytes := sz1 },
           { ip := ip, mac := mac2, host := "", vendor := "", user := "",
             packets := 1, bytes := sz2 }]
    ∧ (identityMap [srcRecord ip mac1 sz1, srcRecord ip mac2 sz2]).length = 2
    ∧ (overview [srcRecord ip mac1 sz1, srcRecord ip mac2 sz2]).uniqueIps = 1 := by
  have hup : ∀ (m : List IdentityEntry) (p : String × String) (sz : Nat),
      m.any (keyMatches p) = false →
        upsertEntry m p sz
          = m ++ [{ ip := p.1, mac := p.2, host := "", vendor := "",
                    user := "", packets := 1, bytes := sz }] := by
    intro m p sz hany
    simp [upsertEntry, hany]
  have hMap : identityMap [srcRecord ip mac1 sz1, srcRecord ip mac2 sz2]
      = [{ ip := ip, mac := mac1, host := "", vendor := "", user := "",
           packets := 1, bytes := sz1 },
         { ip := ip, mac := mac2, host := "", vendor := "", user := "",
           packets := 1, bytes := sz2 }] := by
    have hpairs : ∀ mac sz, addrPairs (srcRecord ip mac sz) = [(ip, mac)] := by
      intro mac sz
      simp [addrPairs, srcRecord]
    have hstep1 : observe [] (srcRecord ip mac1 sz1)
        = [{ ip := ip, mac := mac1, host := "", vendor := "", user := "",
             packets := 1, bytes := sz1 }] := by
      simp only [observe]
      rw [hpairs]
      simp [upsertEntry, srcRecord]
    have hkey : keyMatches (ip, mac2)
        { ip := ip, mac := mac1, host := "", vendor := "", user := "",
          packets := 1, bytes := sz1 } = false := by
      simp [keyMatches, hmac]
    have hstep2 : observe
        [{ ip := ip, mac := mac1, host := "", vendor := "", user := "",
           packets := 1, bytes := sz1 }] (srcRecord ip mac2 sz2)
        = [{ ip := ip, mac := mac1, host := "", vendor := "", user := "",
             packets := 1, bytes := sz1 },
           { ip := ip, mac := mac2, host := "", vendor := "", user := "",
             packets := 1, bytes := sz2 }] := by
      simp only [observe]
      rw [hpairs]
      simp only [List.foldl_cons, List.foldl_nil]
      rw [hup _ _ _ (by simp [hkey])]
      simp [srcRecord]
    simp only [identityMap, List.foldl_cons, List.foldl_nil, hstep1, hstep2]
  refine ⟨hup, ?_, hMap, by rw [hMap]; rfl, ?_⟩
  · intro m p sz e he hkey
    have hany : m.any (keyMatches p) = true := List.any_eq_true.mpr ⟨e, he, hkey⟩
    rw [upsertEntry, if_pos hany]
    exact List.mem_map.mpr ⟨e, he, by simp [hkey]⟩
  · have hips : ([srcRecord ip mac1 sz1, srcRecord ip mac2 sz2].map ipsOf).flatten
        = [ip, ip] := by
      simp [ipsOf, srcRecord]
    show (([srcRecord ip mac1 sz1, srcRecord ip mac2 sz2].map ipsOf).flatten.dedup).length = 1
    rw [hips, List.dedup_cons_of_mem (by simp)]
    simp

/-- Witness for C9 at concrete addresses. -/
theorem claim9_identity_keyed_by_pair_witness :
    ("aa:bb" : String) ≠ "cc:dd"
    ∧ (identityMap [srcRecord "10.0.0.1" "aa:bb" 60, srcRecord "10.0.0.1" "cc:dd" 80]).length = 2
    ∧ (overview [srcRecord "10.0.0.1" "aa:bb" 60, srcRecord "10.0.0.1" "cc:dd" 80]).uniqueIps = 1 :=
  ⟨by decide,
    (claim9_identity_keyed_by_pair "10.0.0.1" "aa:bb" "cc:dd" 60 80 (by decide)).2.2.2.1,
    (claim9_identity_keyed_by_pair "10.0.0.1" "aa:bb" "cc:dd" 60 80 (by decide)).2.2.2.2⟩

end NTA

namespace NTA

/-- Rounding to two decimals moves a rational by at most `1 / 200`. -/
theorem abs_roundTo2_sub (q : Rat) : |roundTo2 q - q| ≤ 1 / 200 := by
  have h : |q * 100 - (round (q * 100) : Rat)| ≤ 1 / 2 := abs_sub_round (q * 100)
  have hrw : roundTo2 q - q = -((q * 100 - (round (q * 100) : Rat)) / 100) := by
    rw [roundTo2]
    ring
  rw [hrw, abs_neg, abs_div, abs_of_nonneg (by norm_num : (0 : Rat) ≤ 100)]
  linarith

/-- Summing pointwise approximations: if each mapped value is within `c` of
its exact counterpart then the sums are within `length * c`. -/
theorem list_sum_approx (l : List String) (f g : String → Rat) (c : Rat)
    (h : ∀ x ∈ l, |f x - g x| ≤ c) :
    |(l.map f).sum - (l.map g).sum| ≤ l.length * c := by
  induction l with
  | nil => simp
  | cons a l ih =>
    have ha := h a (by simp)
    have hl := ih fun x hx => h x (by simp [hx])
    have htri : |(f a + (l.map f).sum) - (g a + (l.map g).sum)|
        ≤ |f a - g a| + |(l.map f).sum - (l.map g).sum| := by
      have : (f a + (l.map f).sum) - (g a + (l.map g).sum)
          = (f a - g a) + ((l.map f).sum - (l.map g).sum) := by ring
      rw [this]
      exact abs_add _ _
    simp only [List.map_cons, List.sum_cons, List.length_cons]
    calc |(f a + (l.map f).sum) - (g a + (l.map g).sum)|
        ≤ |f a - g a| + |(l.map f).sum - (l.map g).sum| := htri
      _ ≤ c + l.length * c := by exact add_le_add ha hl
      _ = (l.length + 1) * c := by ring
      _ = ((l.length + 1 : Nat) : Rat) * c := by push_cast; ring

/-- The exact (unrounded) percentages of the protocol distribution sum to
one hundred. -/
theorem pct_exact_sum (labels : List String) (hne : labels ≠ []) :
    (labels.dedup.map fun l => 100 * (labels.count l : Rat) / labels.length).sum
      = 100 := by
  have hpos : 0 < labels.length := List.length_pos.mpr hne
  have hlen : (labels.length : Rat) ≠ 0 := by
    exact_mod_cast hpos.ne'
  have hform : (fun l => 100 * (labels.count l : Rat) / labels.length)
      = fun l => (100 / (labels.length : Rat)) * ((labels.count l : Nat) : Rat) := by
    funext l
    field_simp
  rw [hform, List.sum_map_mul_left]
  have hcast : (labels.dedup.map fun l => ((labels.count l : Nat) : Rat)).sum
      = ((labels.dedup.map fun l => labels.count l).sum : Nat) := by
    rw [Nat.cast_list_sum, List.map_map]
    rfl
  rw [hcast, List.sum_map_count_dedup_eq_length]
  field_simp

end NTA

namespace NTA

/-- C6: every protocol-distribution entry's percentage is
`100 × count ÷ total` rounded to the fixed two-decimal precision, the entries
are sorted descending by count with ties broken by lexical label order, and
the percentages sum to 100 within the rounding epsilon of half an ulp per
entry. -/
theorem claim6_protocol_distribution (labels : List String) (hne : labels ≠ []) :
    List.Sorted pdRel (protocolDistribution labels)
    ∧ (∀ e ∈ protocolDistribution labels,
        e.pct = roundTo2 (100 * (e.count : Rat) / labels.length))
    ∧ |((protocolDistribution labels).map fun e => e.pct).sum - 100|
        ≤ (protocolDistribution labels).length * (1 / 200) := by
  have hdef : protocolDistribution labels
      = (labels.dedup.map fun l =>
          ({ protocol := l, count := labels.count l,
             pct := roundTo2 (100 * (labels.count l : Rat) / labels.length) }
            : PDEntry)).insertionSort pdRel := rfl
  have hsorted : List.Sorted pdRel (protocolDistribution labels) := by
    rw [hdef]
    exact List.sorted_insertionSort pdRel _
  have hperm : (protocolDistribution labels).Perm
      (labels.dedup.map fun l =>
        ({ protocol := l, count := labels.count l,
           pct := roundTo2 (100 * (labels.count l : Rat) / labels.length) }
          : PDEntry)) := by
    rw [hdef]
    exact List.perm_insertionSort pdRel _
  refine ⟨hsorted, ?_, ?_⟩
  · intro e he
    have hmem := hperm.mem_iff.mp he
    obtain ⟨l, -, hl⟩ := List.mem_map.mp hmem
    subst hl
    rfl
  · have hsum : ((protocolDistribution labels).map fun e => e.pct).sum
        = ((labels.dedup.map fun l =>
            ({ protocol := l, count := labels.count l,
               pct := roundTo2 (100 * (labels.count l : Rat) / labels.length) }
              : PDEntry)).map fun e => e.pct).sum :=
      (hperm.map fun e => e.pct).sum_eq
    have hlenp := hperm.length_eq
    rw [hsum, hlenp, List.length_map, List.map_map]
    have hmap1 : ((fun e : PDEntry => e.pct) ∘ fun l =>
        ({ protocol := l, count := labels.count l,
           pct := roundTo2 (100 * (labels.count l : Rat) / labels.length) }
          : PDEntry))
        = fun l => roundTo2 (100 * (labels.count l : Rat) / labels.length) := rfl
    rw [hmap1]
    have happrox := list_sum_approx labels.dedup
      (fun l => roundTo2 (100 * (labels.count l : Rat) / labels.length))
      (fun l => 100 * (labels.count l : Rat) / labels.length) (1 / 200)
      (fun x _ => abs_roundTo2_sub _)
    rw [pct_exact_sum labels hne] at happrox
    exact happrox

/-- Witness for C6 at the single-DNS-frame scenario. -/
theorem claim6_protocol_distribution_witness :
    (["DNS"] : List String) ≠ []
    ∧ (List.Sorted pdRel (protocolDistribution ["DNS"])
      ∧ (∀ e ∈ protocolDistribution ["DNS"],
          e.pct = roundTo2 (100 * (e.count : Rat) / (["DNS"] : List String).length))
      ∧ |((protocolDistribution ["DNS"]).map fun e => e.pct).sum - 100|
          ≤ (protocolDistribution ["DNS"]).length * (1 / 200)) :=
  ⟨by decide, claim6_protocol_distribution ["DNS"] (by decide)⟩

end NTA
